import Mathlib

/-!
Verification of the KBO crawling/reconciliation pipeline (`scripts/`).

Shallow embedding of the record-linkage core:
* `scripts/crawl_player_team_history.py` — team-history interval construction
  (`fetch_player_history`, tail after HTML parsing).
* `scripts/add_game_id_to_daily.py` — game index construction
  (`build_games_index_and_abbr`) and daily-row game-id resolution
  (`find_player_team_at`, `process_daily_file`).
* `scripts/fix_duplicate_game_ids.py` — duplicate/date repair (`fix_file`).
* `scripts/add_player_id_to_advanced_from_attributes.py` — name-to-id
  assignment with role disambiguation (`load_attributes`, `process_file`).

Python `datetime.date` values are represented structurally (year, month, day);
CSV parsing failures and missing fields are `Option`/empty-string values, as in
the source, which drops or skips such rows.
-/

namespace Kbo

/-- A calendar date encoded as `y*10000 + m*100 + d`; comparison of these
codes coincides with Python `datetime.date` comparison for valid dates. -/
def mkYmd (y m d : Nat) : Nat := y * 10000 + m * 100 + d

/-! ### Team-History Interval Store (`crawl_player_team_history.fetch_player_history`)

The crawler parses the season table into a list `parsed` of `(year, team)`
pairs in row order.  `fetch_player_history` then builds `year_team` as a
dict that keeps the **first** occurrence per year, restricts to years
2021–2025 sorted ascending, and groups runs of consecutive years with an
unchanged team into one interval `[Jan 1 of first year, Dec 31 of last year]`.
-/

/-- One output row of `fetch_player_history`: team plus inclusive date range
(dates as `mkYmd` codes; the source writes them as ISO strings). -/
structure Interval where
  team : String
  startDate : Nat
  endDate : Nat
deriving DecidableEq, Repr

/-- `year_team[y] = team` with first-occurrence-wins, as an association list
in insertion order (source: `if y not in year_team: year_team[y] = team`). -/
def addYearFirst (acc : List (Nat × String)) (p : Nat × String) : List (Nat × String) :=
  if acc.any (fun q => q.1 == p.1) then acc else acc ++ [p]

/-- The `year_team` map built over the parsed rows. -/
def yearTeamFirst (parsed : List (Nat × String)) : List (Nat × String) :=
  parsed.foldl addYearFirst []

/-- `years = sorted([y for y in year_team if 2021 <= y <= 2025])`, paired with
each year's (first-seen) team. -/
def yearRows (parsed : List (Nat × String)) : List (Nat × String) :=
  List.insertionSort (fun a b => a.1 ≤ b.1)
    ((yearTeamFirst parsed).filter (fun p => decide (2021 ≤ p.1) && decide (p.1 ≤ 2025)))

/-- The grouping loop of `fetch_player_history`: `gs`/`gt` are
`group_start`/`group_team`, `prev` is `prev_year`; a year extends the open
group iff its team equals `group_team` and it is `prev_year + 1`. -/
def buildGo (gs : Nat) (gt : String) (prev : Nat) : List (Nat × String) → List Interval
  | [] => [⟨gt, mkYmd gs 1 1, mkYmd prev 12 31⟩]
  | (y, t) :: rest =>
    if t = gt ∧ y = prev + 1 then buildGo gs gt y rest
    else ⟨gt, mkYmd gs 1 1, mkYmd prev 12 31⟩ :: buildGo y t y rest

/-- Intervals emitted by `fetch_player_history` for one player, as a function
of the parsed `(year, team)` rows. -/
def fetchPlayerHistory (parsed : List (Nat × String)) : List Interval :=
  match yearRows parsed with
  | [] => []
  | (y, t) :: rest => buildGo y t y rest

/-! ### Game Index Builder (`add_game_id_to_daily.build_games_index_and_abbr`)

The builder reads the combined games CSV; for each record it extracts the
away/home abbreviations from `game_id[8:10]`/`game_id[10:12]` (when the id
has at least 12 characters), normalizes the date to `YYYYMMDD`, and stores
`games_index[(ymd, away_abbr, home_abbr)] = game_id` — a plain dict
assignment.  Records with a missing/unparseable date, or an id too short to
carry both abbreviations, are skipped.  (The same function also tallies a
team-name → abbreviation majority vote and an abbreviation set; those two
outputs are not involved in the claims below and are not modelled.)
-/

/-- Structured calendar date; `none` upstream models a missing or
`fromisoformat`-rejected date string. -/
structure Date where
  y : Nat
  m : Nat
  d : Nat
deriving DecidableEq, Repr

/-- Comparison code matching Python `datetime.date` ordering on valid dates. -/
def Date.code (x : Date) : Nat := x.y * 10000 + x.m * 100 + x.d

/-- Zero-padded two-digit rendering (`%m`, `%d`). -/
def pad2 (n : Nat) : String := if n < 10 then "0" ++ toString n else toString n

/-- Zero-padded four-digit rendering (`%Y`). -/
def pad4 (n : Nat) : String :=
  if n < 10 then "000" ++ toString n
  else if n < 100 then "00" ++ toString n
  else if n < 1000 then "0" ++ toString n
  else toString n

/-- `datetime.strftime('%Y%m%d')`. -/
def fmtYmd (x : Date) : String := pad4 x.y ++ pad2 x.m ++ pad2 x.d

/-- One record of the combined games file (fields used by the index builder;
`team_away`/`team_home` feed only the unmodelled abbreviation vote). -/
structure GameRow where
  game_id : String
  date : Option Date
  team_away : String
  team_home : String
deriving DecidableEq, Repr

/-- `game_id[8:10]` when `len(game_id) >= 12`, else `''`. -/
def gidAway (gid : String) : String :=
  if 12 ≤ gid.data.length then ⟨(gid.data.drop 8).take 2⟩ else ""

/-- `game_id[10:12]` when `len(game_id) >= 12`, else `''`. -/
def gidHome (gid : String) : String :=
  if 12 ≤ gid.data.length then ⟨(gid.data.drop 10).take 2⟩ else ""

/-- Index key `(ymd, away_abbr, home_abbr)`. -/
abbrev GameKey := String × String × String

/-- One iteration of the index-building loop: skip on missing date or empty
abbreviation, otherwise `games_index[key] = gid` (dict assignment, so a later
record replaces an earlier one under the same key). -/
def insertGameRow (idx : GameKey → Option String) (r : GameRow) : GameKey → Option String :=
  match r.date with
  | none => idx
  | some dt =>
    let aw := gidAway r.game_id
    let hm := gidHome r.game_id
    if aw ≠ "" ∧ hm ≠ "" then
      fun k => if k = (fmtYmd dt, aw, hm) then some r.game_id else idx k
    else idx

/-- The `games_index` dict produced by `build_games_index_and_abbr`,
as a lookup function (`dict.get`). -/
def gamesIndexOf (rows : List GameRow) : GameKey → Option String :=
  rows.foldl insertGameRow (fun _ => none)

/-! ### Daily-Record Game-ID Resolver (`add_game_id_to_daily.process_daily_file`)

Per daily row: parse the date (on failure the row is written with an empty
`game_id` and **not** counted in `rows_processed`); find the player's team via
`find_player_team_at` (first interval containing the date); map the player
team and the opponent text to abbreviations through `team_map` (with an
all-uppercase-length-2..3 fallback for the opponent); when both
abbreviations are truthy, either look the id up in `games_index` under
`(ymd, opp, player)` then `(ymd, player, opp)` — when an index was supplied —
or synthesize `ymd + opp_abbr + player_abbr + '0'` unverified when the
function was handed only a plain team→abbreviation dict. -/

/-- Python truthiness of an optional string (`None` and `''` are falsy). -/
def truthyStr : Option String → Bool
  | some s => s != ""
  | none => false

/-- Python `str.isupper()` (restricted to the cased-character behaviour:
at least one uppercase letter and no lowercase letter). -/
def pyIsUpper (s : String) : Bool :=
  s.data.all (fun c => !c.isLower) && s.data.any (fun c => c.isUpper)

/-- One daily stat row (identifier, date and opponent columns; the remaining
stat fields are carried through unchanged by the source). -/
structure DailyRow where
  pid : String
  date : Option Date
  opp : String
deriving DecidableEq, Repr

/-- `find_player_team_at`: first interval `(sd, ed, team)` of the player with
`sd <= date <= ed`; `None` when the player is unknown or no interval covers
the date. -/
def findPlayerTeamAt (hist : String → List (Date × Date × String)) (pid : String)
    (x : Date) : Option String :=
  (hist pid).findSome? (fun e =>
    if e.1.code ≤ x.code ∧ x.code ≤ e.2.1.code then some e.2.2 else none)

/-- Python `str.strip()`: drop whitespace from both ends. -/
def pyStrip (s : String) : String :=
  ⟨((s.data.dropWhile Char.isWhitespace).reverse.dropWhile Char.isWhitespace).reverse⟩

/-- Opponent abbreviation: `team_map.get(opp.strip())`, replaced by the
stripped text itself when that lookup is falsy and the text is uppercase of
length 2–3. -/
def oppAbbrOf (teamMap : String → Option String) (opp : String) : Option String :=
  let key := pyStrip opp
  let a := teamMap key
  if truthyStr a then a
  else if pyIsUpper key && decide (1 < key.data.length) && decide (key.data.length ≤ 3) then
    some key
  else a

/-- Player abbreviation: `team_map.get(player_team) if player_team else None`. -/
def playerAbbrOf (teamMap : String → Option String) (pt : Option String) : Option String :=
  match pt with
  | some t => if t != "" then teamMap t else none
  | none => none

/-- Python `a or b or ''` over two optional strings. -/
def pyOrStrs (a b : Option String) : String :=
  if truthyStr a then a.getD "" else if truthyStr b then b.getD "" else ""

/-- The `game_id` computed for a daily row whose date parsed to `dt`.
`gidx = some gi` models the combined `(team_map, games_index, abbr_set)`
tuple argument; `gidx = none` models the plain per-year dict argument, in
which case `candidate1` is synthesized without verification. -/
def resolveGameId (hist : String → List (Date × Date × String))
    (teamMap : String → Option String) (gidx : Option (GameKey → Option String))
    (r : DailyRow) (dt : Date) : String :=
  let playerTeam := findPlayerTeamAt hist r.pid dt
  let ymd := fmtYmd dt
  let oppA := oppAbbrOf teamMap r.opp
  let playA := playerAbbrOf teamMap playerTeam
  if truthyStr playA && truthyStr oppA then
    let oa := oppA.getD ""
    let pa := playA.getD ""
    match gidx with
    | some gi => pyOrStrs (gi (ymd, oa, pa)) (gi (ymd, pa, oa))
    | none => ymd ++ oa ++ pa ++ "0"
  else ""

/-- `process_daily_file` over the data rows: each row is written out with its
`game_id` (empty on unparseable date, which also skips the
`rows_processed += 1`); returns the written rows paired with
`rows_processed`. -/
def processDailyFile (hist : String → List (Date × Date × String))
    (teamMap : String → Option String) (gidx : Option (GameKey → Option String))
    (rows : List DailyRow) : List (String × DailyRow) × Nat :=
  rows.foldl (fun acc r =>
    match r.date with
    | none => (acc.1 ++ [("", r)], acc.2)
    | some dt => (acc.1 ++ [(resolveGameId hist teamMap gidx r dt, r)], acc.2 + 1))
    ([], 0)

/-! ### Identifier Repair Engine (`fix_duplicate_game_ids.fix_file`)

Pass A scans rows in file order with a seen-set of `(PLAYER_ID, GAME_ID)`
pairs; a row whose pair was already seen gets its id rewritten (flip a
trailing `'1'` to `'2'` when the id has exactly 13 characters, else append
`'_2'`) and the rewritten pair is added to the seen-set.  Pass B — only when
a `game_date` column exists — rewrites each row whose (post-Pass-A) id ends
in `'_2'` and whose date matches `(\d{4}) sep? (\d{2}) sep? (\d{2})` with day
`01/02/03`: the day becomes `10/20/30`, the `'_2'` is stripped, and the first
compact `\d{8}` (then the first dashed date) inside the id has its day
replaced.  The change counter sums both passes. -/

/-- One row of the daily file as seen by `fix_file` (identifier columns plus
the `game_date` column; other columns are untouched). -/
structure FRow where
  pid : String
  gid : String
  gameDate : String
deriving DecidableEq, Repr

/-- The `(PLAYER_ID, GAME_ID)` pair of a row. -/
def fpair (r : FRow) : String × String := (r.pid, r.gid)

/-- The Pass-A rewrite of a duplicated id: `s[:-1] + '2'` when
`len(s) == 13 and s[-1] == '1'`, otherwise `s + '_2'`. -/
def rewriteGid (s : String) : String :=
  if s.data.length = 13 then
    if s.data.getLast? = some '1' then ⟨s.data.dropLast ++ ['2']⟩ else s ++ "_2"
  else s ++ "_2"

/-- The rewrite on pairs (player id unchanged). -/
def rwp (p : String × String) : String × String := (p.1, rewriteGid p.2)

/-- The Pass-A loop: `seen` is the seen-set, `acc` the rows written so far,
`chg` the change count. -/
def passAGo (seen : List (String × String)) (acc : List FRow) (chg : Nat) :
    List FRow → List FRow × Nat
  | [] => (acc, chg)
  | r :: rest =>
    if fpair r ∈ seen then
      let g := rewriteGid r.gid
      passAGo ((r.pid, g) :: seen) (acc ++ [{ r with gid := g }]) (chg + 1) rest
    else
      passAGo (fpair r :: seen) (acc ++ [r]) chg rest

/-- Pass A over a whole file. -/
def passA (rows : List FRow) : List FRow × Nat := passAGo [] [] 0 rows

/-- Is `c` one of the separator characters (dash, slash, dot) of the date regex? -/
def sepChar (c : Char) : Bool := c == '-' || c == '/' || c == '.'

/-- Take exactly `n` leading decimal digits. -/
def takeDigits : Nat → List Char → Option (List Char × List Char)
  | 0, cs => some ([], cs)
  | _ + 1, [] => none
  | n + 1, c :: cs =>
    if c.isDigit then (takeDigits n cs).map (fun p => (c :: p.1, p.2)) else none

/-- Drop one optional separator (`sep?` — greedy, and deterministic here
because a separator can never begin the following digit group). -/
def dropSep : List Char → List Char
  | c :: t => if sepChar c then t else c :: t
  | [] => []

/-- Match `(\d{4}) sep? (\d{2}) sep? (\d{2})` at the head of `cs`,
returning the year/month/day groups. -/
def matchYmdAt (cs : List Char) : Option (String × String × String) :=
  match takeDigits 4 cs with
  | none => none
  | some (ys, cs1) =>
    match takeDigits 2 (dropSep cs1) with
    | none => none
    | some (ms, cs2) =>
      match takeDigits 2 (dropSep cs2) with
      | none => none
      | some (ds, _) => some (⟨ys⟩, ⟨ms⟩, ⟨ds⟩)

/-- `re.search` of the date pattern: leftmost match. -/
def searchYmd : List Char → Option (String × String × String)
  | [] => none
  | c :: rest =>
    match matchYmdAt (c :: rest) with
    | some r => some r
    | none => searchYmd rest

/-- Do eight decimal digits start here? -/
def eightDigitsAt (cs : List Char) : Bool :=
  (cs.take 8).length == 8 && (cs.take 8).all Char.isDigit

/-- `re.sub(r"(\d{4})(\d{2})(\d{2})", y+m+new_day, s, count=1)`: replace the
day digits of the leftmost compact 8-digit date. -/
def subCompact (nd : List Char) : List Char → List Char
  | [] => []
  | c :: rest =>
    if eightDigitsAt (c :: rest) then ((c :: rest).take 6) ++ nd ++ ((c :: rest).drop 8)
    else c :: subCompact nd rest

/-- Match `(\d{4}) sep (\d{2}) sep (\d{2})` (mandatory separators) at the
head, returning year group, month group and the remainder. -/
def dashedAt (cs : List Char) : Option (List Char × List Char × List Char) :=
  match takeDigits 4 cs with
  | none => none
  | some (ys, cs1) =>
    match cs1 with
    | [] => none
    | c :: cs1t =>
      if sepChar c then
        match takeDigits 2 cs1t with
        | none => none
        | some (ms, cs2) =>
          match cs2 with
          | [] => none
          | c2 :: cs2t =>
            if sepChar c2 then
              match takeDigits 2 cs2t with
              | none => none
              | some (_, after) => some (ys, ms, after)
            else none
      else none

/-- `re.sub(r"(\d{4}) sep (\d{2}) sep (\d{2})", y+m+new_day, s, count=1)`
(the replacement drops the separators, as in the source). -/
def subDashed (nd : List Char) : List Char → List Char
  | [] => []
  | c :: rest =>
    match dashedAt (c :: rest) with
    | some (ys, ms, after) => ys ++ ms ++ nd ++ after
    | none => c :: subDashed nd rest

/-- The day-correction table `{'01': '10', '02': '20', '03': '30'}`. -/
def dayMap (d : String) : Option String :=
  if d = "01" then some "10" else if d = "02" then some "20"
  else if d = "03" then some "30" else none

/-- Python `s.endswith('_2')`. -/
def endsWith2 (s : String) : Bool := s.data.reverse.take 2 == ['2', '_']

/-- Pass B applied to one masked row: the corrected row plus its change
count (0 when the regex fails to match or the day is not correctable). -/
def passBRow (r : FRow) : FRow × Nat :=
  if endsWith2 r.gid then
    match searchYmd r.gameDate.data with
    | none => (r, 0)
    | some (yy, mm, dd) =>
      match dayMap dd with
      | none => (r, 0)
      | some nd =>
        let g1 := r.gid.data.dropLast.dropLast
        ({ pid := r.pid, gid := ⟨subDashed nd.data (subCompact nd.data g1)⟩,
           gameDate := yy ++ "-" ++ mm ++ "-" ++ nd }, 1)
  else (r, 0)

/-- Pass B over the file; skipped entirely when no `game_date` column exists
(`date_col is None`).  The `'_2'` mask is computed from the post-Pass-A ids
and each row is corrected independently. -/
def passB (hasDate : Bool) (rows : List FRow) : List FRow × Nat :=
  if hasDate then
    rows.foldl (fun acc r => (acc.1 ++ [(passBRow r).1], acc.2 + (passBRow r).2)) ([], 0)
  else (rows, 0)

/-- `fix_file`: Pass A then Pass B, returning the rewritten rows and the
total change count. -/
def fixFile (hasDate : Bool) (rows : List FRow) : List FRow × Nat :=
  let a := passA rows
  let b := passB hasDate a.1
  (b.1, a.2 + b.2)

/-! ### Player Identity Merger (`add_player_id_to_advanced_from_attributes`)

`load_attributes` builds `name -> sorted list of distinct ids` (ids and
names arrive here already stripped/normalized; rows with an empty name or id
are skipped upstream) and derives `unique_map` from the singleton entries.
`process_file` then chooses, for each row name: the unique id when the name
is unambiguous; otherwise, when several candidate ids exist and the file
name implies a role, the single candidate carrying that role in the scanned
`roles_map`, or the empty string when zero or several candidates match. -/

/-- Lexicographic code-point comparison of character lists (Python string
`<`). -/
def charListLt : List Char → List Char → Bool
  | _, [] => false
  | [], _ :: _ => true
  | a :: as, b :: bs => decide (a < b) || (a == b && charListLt as bs)

/-- Python `a <= b` on strings. -/
def strLeB (a b : String) : Bool := !(charListLt b.data a.data)

/-- `sorted(set(ids))` for the ids recorded under a name in the attributes
table (`mapping_lists[name]`). -/
def idsOf (attrs : List (String × String)) (n : String) : List String :=
  List.insertionSort (fun a b => strLeB a b = true)
    (((attrs.filter (fun p => p.1 == n)).map Prod.snd).dedup)

/-- The id chosen by the `process_file` loop for one row name (`''` when the
name is left unresolved).  `rolesMap` is the scanned id → observed-roles
table; `desiredRole` is the role implied by the file name. -/
def choosePid (attrs : List (String × String)) (rolesMap : String → List String)
    (desiredRole : Option String) (n : String) : String :=
  if n = "" then ""
  else
    let ids := idsOf attrs n
    if ids.length = 1 then ids.headD ""
    else
      let candidates := ids
      if candidates.length = 1 then candidates.headD ""
      else if decide (1 < candidates.length) && truthyStr desiredRole then
        let dr := desiredRole.getD ""
        let roleMatches := candidates.filter (fun pid => (rolesMap pid).contains dr)
        if roleMatches.length = 1 then roleMatches.headD "" else ""
      else ""

/-! ## Theorems -/

/-- Counterexample to claim C1: two game records on 2023-08-15 whose ids both
embed the abbreviation pair `XX`/`YY` collide on the index key
`("20230815", "XX", "YY")`; the built index holds the **second** record's id
`"20230815XXYY1"`, not the first-encountered `"20230815XXYY0"` (and the first
record alone does register that key, so it was overwritten). -/
theorem C1_counterexample :
    gamesIndexOf [⟨"20230815XXYY0", some ⟨2023, 8, 15⟩, "", ""⟩]
        ("20230815", "XX", "YY") = some "20230815XXYY0" ∧
    gamesIndexOf [⟨"20230815XXYY0", some ⟨2023, 8, 15⟩, "", ""⟩,
                  ⟨"20230815XXYY1", some ⟨2023, 8, 15⟩, "", ""⟩]
        ("20230815", "XX", "YY") = some "20230815XXYY1" ∧
    ("20230815XXYY1" : String) ≠ "20230815XXYY0" := by
  refine ⟨by decide, by decide, by decide⟩

/-- Claim C1 (amended): the game index built by
`build_games_index_and_abbr` is **last**-wins — for any record `r` with a
parseable date and a well-formed id appended after any earlier records, the
index maps `r`'s derived key to `r.game_id`, regardless of earlier records
under the same key. -/
theorem gamesIndex_last_wins (rows : List GameRow) (r : GameRow) (dt : Date)
    (hd : r.date = some dt) (ha : gidAway r.game_id ≠ "") (hh : gidHome r.game_id ≠ "") :
    gamesIndexOf (rows ++ [r]) (fmtYmd dt, gidAway r.game_id, gidHome r.game_id) =
      some r.game_id := by
  unfold gamesIndexOf
  rw [List.foldl_append]
  simp [insertGameRow, hd, ha, hh]

/-- Witness for `gamesIndex_last_wins` at the records of `C1_counterexample`. -/
theorem gamesIndex_last_wins_witness :
    gamesIndexOf [⟨"20230815XXYY0", some ⟨2023, 8, 15⟩, "", ""⟩,
                  ⟨"20230815XXYY1", some ⟨2023, 8, 15⟩, "", ""⟩]
      (fmtYmd ⟨2023, 8, 15⟩, gidAway "20230815XXYY1", gidHome "20230815XXYY1") =
      some "20230815XXYY1" :=
  gamesIndex_last_wins [⟨"20230815XXYY0", some ⟨2023, 8, 15⟩, "", ""⟩]
    ⟨"20230815XXYY1", some ⟨2023, 8, 15⟩, "", ""⟩ ⟨2023, 8, 15⟩ rfl
    (by decide) (by decide)

/-- Claim C2, evaluated on the failing input: a player observed with teams
`"A"` then `"B"` in year 2023 yields a **single** interval
`{A, 2023-01-01, 2023-12-31}` — not the two documented mid-season-split
intervals — because `fetch_player_history` keeps only the first team seen per
year and never calls `split_year_entries`. -/
theorem fetchPlayerHistory_midseason_single_interval :
    fetchPlayerHistory [(2023, "A"), (2023, "B")] =
      [⟨"A", mkYmd 2023 1 1, mkYmd 2023 12 31⟩] ∧
    (fetchPlayerHistory [(2023, "A"), (2023, "B")]).length ≠ 2 := by
  refine ⟨by decide, by decide⟩

/-- Counterexample to claim C3: when `process_daily_file` is handed a plain
team→abbreviation dict instead of the combined tuple (the per-year fallback
in `main` when the combined games file is empty), the resolver writes the
synthesized, unverified id `ymd + opp_abbr + player_abbr + '0'` — there is no
index entry verifying it, yet the field is not left empty. -/
theorem C3_counterexample :
    resolveGameId
      (fun p => if p = "P1" then [(⟨2023, 1, 1⟩, ⟨2023, 12, 31⟩, "TeamA")] else [])
      (fun t => if t = "TeamA" then some "XX" else if t = "TeamB" then some "YY" else none)
      none ⟨"P1", some ⟨2023, 8, 15⟩, "TeamB"⟩ ⟨2023, 8, 15⟩ = "20230815YYXX0" ∧
    ("20230815YYXX0" : String) ≠ "" := by
  refine ⟨by decide, by decide⟩

/-- Claim C3 (amended): **when the games index is supplied** (the combined
tuple path), the resolver is verified-or-empty — if neither
`(ymd, opp_abbr, player_abbr)` nor `(ymd, player_abbr, opp_abbr)` has a
truthy index entry, the row's `game_id` is the empty string; no id is
synthesized.  (Without an index the legacy branch synthesizes `candidate1`
unverified, per `C3_counterexample`.) -/
theorem resolveGameId_verified_or_empty (hist : String → List (Date × Date × String))
    (teamMap : String → Option String) (gi : GameKey → Option String)
    (r : DailyRow) (dt : Date)
    (h1 : truthyStr (gi (fmtYmd dt, (oppAbbrOf teamMap r.opp).getD "",
            (playerAbbrOf teamMap (findPlayerTeamAt hist r.pid dt)).getD "")) = false)
    (h2 : truthyStr (gi (fmtYmd dt, (playerAbbrOf teamMap (findPlayerTeamAt hist r.pid dt)).getD "",
            (oppAbbrOf teamMap r.opp).getD "")) = false) :
    resolveGameId hist teamMap (some gi) r dt = "" := by
  unfold resolveGameId
  cases hb : (truthyStr (playerAbbrOf teamMap (findPlayerTeamAt hist r.pid dt)) &&
      truthyStr (oppAbbrOf teamMap r.opp)) with
  | false => simp [hb]
  | true => simp [hb, pyOrStrs, h1, h2]

/-- Witness for `resolveGameId_verified_or_empty` on an empty index. -/
theorem resolveGameId_verified_or_empty_witness :
    resolveGameId
      (fun p => if p = "P1" then [(⟨2023, 1, 1⟩, ⟨2023, 12, 31⟩, "TeamA")] else [])
      (fun t => if t = "TeamA" then some "XX" else if t = "TeamB" then some "YY" else none)
      (some (fun _ => none)) ⟨"P1", some ⟨2023, 8, 15⟩, "TeamB"⟩ ⟨2023, 8, 15⟩ = "" :=
  resolveGameId_verified_or_empty _ _ _ _ _ (by decide) (by decide)

/-- Counterexample to claim C5: with `{game_id: "20230815AABB1"}` (away `AA`,
home `BB`) registered, and a second same-date game `"20230815BBAA2"` with the
roles swapped also registered, a daily row whose player resolves to
abbreviation `AA` and whose opponent maps to `BB` — i.e. a row matching the
first game — resolves to `"20230815BBAA2"`, because the lookup probes
`(ymd, opp_abbr, player_abbr)` first. -/
theorem C5_counterexample :
    gamesIndexOf [⟨"20230815AABB1", some ⟨2023, 8, 15⟩, "", ""⟩,
                  ⟨"20230815BBAA2", some ⟨2023, 8, 15⟩, "", ""⟩]
        ("20230815", "AA", "BB") = some "20230815AABB1" ∧
    resolveGameId
      (fun p => if p = "P1" then [(⟨2023, 1, 1⟩, ⟨2023, 12, 31⟩, "TeamA")] else [])
      (fun t => if t = "TeamA" then some "AA" else if t = "TeamB" then some "BB" else none)
      (some (gamesIndexOf [⟨"20230815AABB1", some ⟨2023, 8, 15⟩, "", ""⟩,
                           ⟨"20230815BBAA2", some ⟨2023, 8, 15⟩, "", ""⟩]))
      ⟨"P1", some ⟨2023, 8, 15⟩, "TeamB"⟩ ⟨2023, 8, 15⟩ = "20230815BBAA2" ∧
    ("20230815BBAA2" : String) ≠ "20230815AABB1" := by
  refine ⟨by decide, by decide, by decide⟩

/-- Claim C5 (amended): round-trip of index and resolve holds with a
disambiguation side condition.  If the index holds `g` under
`(ymd, A, B)` and the daily row resolves to player abbreviation `pa` and
opponent abbreviation `oa` with `{oa, pa} = {A, B}`, then the resolver
returns `g` provided either the opponent is the away side (`oa = A`,
`pa = B`), or the opponent is the home side and no game is registered under
the swapped key `(ymd, B, A)` — the probe order prefers opponent-as-away. -/
theorem resolveGameId_roundtrip (hist : String → List (Date × Date × String))
    (teamMap : String → Option String) (gi : GameKey → Option String)
    (r : DailyRow) (dt : Date) (A B oa pa g : String)
    (hoa : oppAbbrOf teamMap r.opp = some oa) (hoa0 : oa ≠ "")
    (hpa : playerAbbrOf teamMap (findPlayerTeamAt hist r.pid dt) = some pa) (hpa0 : pa ≠ "")
    (hg : gi (fmtYmd dt, A, B) = some g) (hg0 : g ≠ "")
    (hcase : (oa = A ∧ pa = B) ∨ (oa = B ∧ pa = A ∧ gi (fmtYmd dt, B, A) = none)) :
    resolveGameId hist teamMap (some gi) r dt = g := by
  have hho : truthyStr (some oa) = true := by simp [truthyStr, hoa0]
  have hhp : truthyStr (some pa) = true := by simp [truthyStr, hpa0]
  rcases hcase with ⟨h1, h2⟩ | ⟨h1, h2, h3⟩
  · subst h1; subst h2
    simp only [resolveGameId, hoa, hpa, hhp, hho, Bool.and_self, if_true]
    simp [pyOrStrs, truthyStr, hg, hg0]
  · subst h1; subst h2
    simp only [resolveGameId, hoa, hpa, hhp, hho, Bool.and_self, if_true]
    simp [pyOrStrs, truthyStr, hg, h3, hg0]

/-- Witness for `resolveGameId_roundtrip`: the player is the home side, so
the first probe hits the registered game directly. -/
theorem resolveGameId_roundtrip_witness :
    resolveGameId
      (fun p => if p = "P1" then [(⟨2023, 1, 1⟩, ⟨2023, 12, 31⟩, "TeamH")] else [])
      (fun t => if t = "TeamH" then some "BB" else if t = "TeamV" then some "AA" else none)
      (some (fun k => if k = ("20230815", "AA", "BB") then some "20230815AABB0" else none))
      ⟨"P1", some ⟨2023, 8, 15⟩, "TeamV"⟩ ⟨2023, 8, 15⟩ = "20230815AABB0" :=
  resolveGameId_roundtrip _ _ _ _ _ "AA" "BB" "AA" "BB" "20230815AABB0"
    (by decide) (by decide) (by decide) (by decide) (by decide) (by decide)
    (Or.inl ⟨rfl, rfl⟩)

/-- Counterexample to claim C6: over a run with one resolvable row and one
row whose player has no covering interval, the only counter the script keeps
(`rows_processed`, the value it returns and prints) ends at 2 while exactly
one row was left unresolved — the script maintains no counter that is
incremented by exactly one per unresolved row. -/
theorem C6_counterexample :
    (processDailyFile
        (fun p => if p = "P1" then [(⟨2023, 1, 1⟩, ⟨2023, 12, 31⟩, "TeamA")] else [])
        (fun t => if t = "TeamA" then some "XX" else if t = "TeamB" then some "YY" else none)
        (some (fun k => if k = ("20230815", "YY", "XX") then some "20230815YYXX0" else none))
        [⟨"P1", some ⟨2023, 8, 15⟩, "TeamB"⟩, ⟨"P2", some ⟨2023, 8, 15⟩, "TeamB"⟩]).2 = 2 ∧
    ((processDailyFile
        (fun p => if p = "P1" then [(⟨2023, 1, 1⟩, ⟨2023, 12, 31⟩, "TeamA")] else [])
        (fun t => if t = "TeamA" then some "XX" else if t = "TeamB" then some "YY" else none)
        (some (fun k => if k = ("20230815", "YY", "XX") then some "20230815YYXX0" else none))
        [⟨"P1", some ⟨2023, 8, 15⟩, "TeamB"⟩, ⟨"P2", some ⟨2023, 8, 15⟩, "TeamB"⟩]).1.filter
      (fun p => p.1 == "")).length = 1 ∧
    (2 : Nat) ≠ 1 := by
  refine ⟨by decide, by decide, by decide⟩

/-- Claim C6 (amended): a daily row whose date is covered by no interval of
its player resolves without failure to an empty `game_id`; the row is still
written and counted once in `rows_processed` — the script's only counter —
which counts every date-parsed row, resolved or not. -/
theorem processDailyFile_unresolved_safe (hist : String → List (Date × Date × String))
    (teamMap : String → Option String) (gidx : Option (GameKey → Option String))
    (pre : List DailyRow) (r : DailyRow) (dt : Date) (hd : r.date = some dt)
    (hteam : findPlayerTeamAt hist r.pid dt = none) :
    processDailyFile hist teamMap gidx (pre ++ [r]) =
      ((processDailyFile hist teamMap gidx pre).1 ++ [("", r)],
       (processDailyFile hist teamMap gidx pre).2 + 1) := by
  unfold processDailyFile
  rw [List.foldl_append]
  simp [hd, resolveGameId, hteam, playerAbbrOf, truthyStr]

/-- Witness for `processDailyFile_unresolved_safe` on a one-row file. -/
theorem processDailyFile_unresolved_safe_witness :
    processDailyFile (fun _ => []) (fun _ => none) none
        ([] ++ [⟨"P2", some ⟨2023, 8, 15⟩, "TeamB"⟩]) =
      ((processDailyFile (fun _ => []) (fun _ => none) none []).1 ++
        [("", ⟨"P2", some ⟨2023, 8, 15⟩, "TeamB"⟩)],
       (processDailyFile (fun _ => []) (fun _ => none) none []).2 + 1) :=
  processDailyFile_unresolved_safe _ _ _ [] _ ⟨2023, 8, 15⟩ rfl (by decide)

/-- Writing after a longer accumulator appends the same suffix. -/
theorem passAGo_acc2 (rest : List FRow) :
    ∀ (seen : List (String × String)) (acc1 acc2 : List FRow) (chg : Nat),
      (passAGo seen (acc1 ++ acc2) chg rest).1 = acc1 ++ (passAGo seen acc2 chg rest).1 := by
  induction rest with
  | nil => intro seen acc1 acc2 chg; simp [passAGo]
  | cons r rest ih =>
    intro seen acc1 acc2 chg
    by_cases h : fpair r ∈ seen
    · simp only [passAGo, if_pos h]
      rw [List.append_assoc]
      exact ih _ acc1 _ _
    · simp only [passAGo, if_neg h]
      rw [List.append_assoc]
      exact ih _ acc1 _ _

/-- The rows already written are a prefix of the Pass-A result. -/
theorem passAGo_acc (rest : List FRow) (seen : List (String × String))
    (acc : List FRow) (chg : Nat) :
    (passAGo seen acc chg rest).1 = acc ++ (passAGo seen [] chg rest).1 := by
  have h := passAGo_acc2 rest seen acc [] chg
  simpa using h

/-- Pass A leaves a file unchanged (and counts no change) when no row's pair
is in the seen-set and the pairs are pairwise distinct. -/
theorem passAGo_no_dups (rest : List FRow) :
    ∀ (seen : List (String × String)) (acc : List FRow) (chg : Nat),
      (∀ r ∈ rest, fpair r ∉ seen) → (rest.map fpair).Nodup →
      passAGo seen acc chg rest = (acc ++ rest, chg) := by
  induction rest with
  | nil => intro seen acc chg _ _; simp [passAGo]
  | cons r rest ih =>
    intro seen acc chg hseen hnd
    have hnd' : (∀ x ∈ rest, ¬fpair x = fpair r) ∧ (rest.map fpair).Nodup := by
      simpa using hnd
    have hr : fpair r ∉ seen := hseen r (by simp)
    simp only [passAGo, if_neg hr]
    rw [ih (fpair r :: seen) (acc ++ [r]) chg]
    · simp
    · intro q hq
      simp only [List.mem_cons, not_or]
      exact ⟨hnd'.1 q hq, hseen q (by simp [hq])⟩
    · exact hnd'.2

/-- A Pass-B fold over rows none of which trigger the date repair rebuilds
the rows unchanged with a zero change count. -/
theorem passB_fold_id (rows : List FRow) :
    ∀ (acc : List FRow) (chg : Nat), (∀ r ∈ rows, passBRow r = (r, 0)) →
      rows.foldl (fun acc r => (acc.1 ++ [(passBRow r).1], acc.2 + (passBRow r).2))
        (acc, chg) = (acc ++ rows, chg) := by
  induction rows with
  | nil => intro acc chg _; simp
  | cons r rows ih =>
    intro acc chg h
    have hr := h r (by simp)
    simp only [List.foldl_cons, hr]
    rw [ih (acc ++ [r]) (chg + 0) (fun q hq => h q (by simp [hq]))]
    simp

/-- Counterexample to claim C4: a pair occurring three times is not fully
disambiguated — after Pass A, rows 2 and 3 both carry the rewritten id, so
the `(PLAYER_ID, GAME_ID)` pairs of the output are not pairwise distinct. -/
theorem C4_counterexample :
    ¬ (((passA [⟨"P", "G1", ""⟩, ⟨"P", "G1", ""⟩, ⟨"P", "G1", ""⟩]).1.map fpair).Nodup) := by
  decide

/-- Seen-set invariant of the Pass-A scan: starting from a state reached
after processing `pref` (with duplicate multiplicities bounded by 2 and
rewrites fresh and injective over the whole file), the written rows keep
pairwise-distinct pairs. -/
theorem passAGo_nodup_inv (rest : List FRow) :
    ∀ (pref : List FRow) (seen : List (String × String)) (acc : List FRow) (chg : Nat),
      (∀ q, q ∈ seen ↔ q ∈ pref.map fpair ∨
        ∃ p, p ∈ pref.map fpair ∧ 2 ≤ (pref.map fpair).count p ∧ q = rwp p) →
      (acc.map fpair).Nodup →
      (∀ q ∈ acc.map fpair, q ∈ seen) →
      (∀ p ∈ (pref ++ rest).map fpair, ((pref ++ rest).map fpair).count p ≤ 2) →
      (∀ p ∈ (pref ++ rest).map fpair, rwp p ∉ (pref ++ rest).map fpair) →
      (∀ p ∈ (pref ++ rest).map fpair, ∀ q ∈ (pref ++ rest).map fpair,
        p ≠ q → rwp p ≠ rwp q) →
      (((passAGo seen acc chg rest).1).map fpair).Nodup := by
  induction rest with
  | nil =>
    intro pref seen acc chg hseen hacc hsub h1 h2 h3
    simpa [passAGo] using hacc
  | cons r rest ih =>
    intro pref seen acc chg hseen hacc hsub h1 h2 h3
    have hmem_r : fpair r ∈ (pref ++ r :: rest).map fpair := by simp
    have hlift : ∀ p, p ∈ pref.map fpair → p ∈ (pref ++ r :: rest).map fpair := by
      intro p hp
      rw [List.map_append]
      exact List.mem_append_left _ hp
    have heq : (pref ++ [r]) ++ rest = pref ++ r :: rest := by simp
    by_cases h : fpair r ∈ seen
    · -- repeated pair: the row is rewritten to `rwp (fpair r)`
      have hp_pref : fpair r ∈ pref.map fpair := by
        rcases (hseen (fpair r)).mp h with hmem | ⟨p, hpmem, _, hq⟩
        · exact hmem
        · exact absurd (hq ▸ hmem_r) (h2 p (hlift p hpmem))
      have hcnt_pos : 1 ≤ (pref.map fpair).count (fpair r) :=
        List.count_pos_iff.mpr hp_pref
      have hrw_notin : rwp (fpair r) ∉ seen := by
        intro hin
        rcases (hseen _).mp hin with hmem | ⟨p, hpmem, hdup, hq⟩
        · exact h2 (fpair r) hmem_r (hlift _ hmem)
        · by_cases hpq : p = fpair r
          · subst hpq
            have c3 : 3 ≤ ((pref ++ r :: rest).map fpair).count (fpair r) := by
              rw [List.map_append, List.count_append]
              have c2 : 1 ≤ ((r :: rest).map fpair).count (fpair r) := by
                simp [List.count_cons]
              omega
            have := h1 (fpair r) hmem_r
            omega
          · exact h3 (fpair r) hmem_r p (hlift p hpmem) (fun hcc => hpq hcc.symm) hq
      have hrw_notin_acc : rwp (fpair r) ∉ acc.map fpair :=
        fun hin => hrw_notin (hsub _ hin)
      simp only [passAGo, if_pos h]
      have hfp : fpair { r with gid := rewriteGid r.gid } = rwp (fpair r) := rfl
      apply ih (pref ++ [r]) _ _ _ ?_ ?_ ?_ (heq ▸ h1) (heq ▸ h2) (heq ▸ h3)
      · -- seen-set invariant at the extended state
        intro q
        constructor
        · intro hq
          rcases List.mem_cons.mp hq with rfl | hq
          · refine Or.inr ⟨fpair r, ?_, ?_, rfl⟩
            · simp
            · rw [List.map_append, List.count_append]
              simp only [List.map_cons, List.map_nil, List.count_singleton]
              simp only [beq_self_eq_true, if_true]
              omega
          · rcases (hseen q).mp hq with hmem | ⟨p, hpmem, hdup, hqq⟩
            · exact Or.inl (by rw [List.map_append]; exact List.mem_append_left _ hmem)
            · refine Or.inr ⟨p, by rw [List.map_append]; exact List.mem_append_left _ hpmem, ?_, hqq⟩
              rw [List.map_append, List.count_append]
              omega
        · intro hq
          rcases hq with hmem | ⟨p, hpmem, hdup, hqq⟩
          · rw [List.map_append] at hmem
            rcases List.mem_append.mp hmem with hmem | hmem
            · exact List.mem_cons_of_mem _ ((hseen q).mpr (Or.inl hmem))
            · simp only [List.map_cons, List.map_nil, List.mem_singleton] at hmem
              exact List.mem_cons_of_mem _ (hmem ▸ h)
          · by_cases hpq : p = fpair r
            · subst hpq; subst hqq; exact List.mem_cons_self _ _
            · rw [List.map_append] at hpmem
              rcases List.mem_append.mp hpmem with hpm | hpm
              · have hcnt : 2 ≤ (pref.map fpair).count p := by
                  rw [List.map_append, List.count_append] at hdup
                  simp only [List.map_cons, List.map_nil, List.count_singleton] at hdup
                  rw [if_neg (by simpa [beq_iff_eq] using fun hcc => hpq hcc.symm)] at hdup
                  omega
                exact List.mem_cons_of_mem _ ((hseen q).mpr (Or.inr ⟨p, hpm, hcnt, hqq⟩))
              · simp only [List.map_cons, List.map_nil, List.mem_singleton] at hpm
                exact absurd hpm hpq
      · -- written rows keep distinct pairs
        rw [List.map_append]
        rw [List.nodup_append]
        refine ⟨hacc, by simp, ?_⟩
        intro a ha hb
        simp only [List.map_cons, List.map_nil, List.mem_singleton, hfp] at hb
        subst hb
        exact hrw_notin_acc ha
      · intro q hq
        rw [List.map_append] at hq
        rcases List.mem_append.mp hq with hq | hq
        · exact List.mem_cons_of_mem _ (hsub q hq)
        · simp only [List.map_cons, List.map_nil, List.mem_singleton, hfp] at hq
          exact hq ▸ List.mem_cons_self _ _
    · -- fresh pair: the row is written unchanged
      have hp_not_pref : fpair r ∉ pref.map fpair :=
        fun hmem => h ((hseen _).mpr (Or.inl hmem))
      have hcnt0 : (pref.map fpair).count (fpair r) = 0 :=
        List.count_eq_zero.mpr hp_not_pref
      simp only [passAGo, if_neg h]
      apply ih (pref ++ [r]) _ _ _ ?_ ?_ ?_ (heq ▸ h1) (heq ▸ h2) (heq ▸ h3)
      · intro q
        constructor
        · intro hq
          rcases List.mem_cons.mp hq with rfl | hq
          · exact Or.inl (by rw [List.map_append]; simp)
          · rcases (hseen q).mp hq with hmem | ⟨p, hpmem, hdup, hqq⟩
            · exact Or.inl (by rw [List.map_append]; exact List.mem_append_left _ hmem)
            · refine Or.inr ⟨p, by rw [List.map_append]; exact List.mem_append_left _ hpmem, ?_, hqq⟩
              rw [List.map_append, List.count_append]
              omega
        · intro hq
          rcases hq with hmem | ⟨p, hpmem, hdup, hqq⟩
          · rw [List.map_append] at hmem
            rcases List.mem_append.mp hmem with hmem | hmem
            · exact List.mem_cons_of_mem _ ((hseen q).mpr (Or.inl hmem))
            · simp only [List.map_cons, List.map_nil, List.mem_singleton] at hmem
              exact hmem ▸ List.mem_cons_self _ _
          · by_cases hpq : p = fpair r
            · subst hpq
              rw [List.map_append, List.count_append] at hdup
              simp only [List.map_cons, List.map_nil, List.count_singleton] at hdup
              rw [if_pos (by simp)] at hdup
              omega
            · rw [List.map_append] at hpmem
              rcases List.mem_append.mp hpmem with hpm | hpm
              · have hcnt : 2 ≤ (pref.map fpair).count p := by
                  rw [List.map_append, List.count_append] at hdup
                  simp only [List.map_cons, List.map_nil, List.count_singleton] at hdup
                  rw [if_neg (by simpa [beq_iff_eq] using fun hcc => hpq hcc.symm)] at hdup
                  omega
                exact List.mem_cons_of_mem _ ((hseen q).mpr (Or.inr ⟨p, hpm, hcnt, hqq⟩))
              · simp only [List.map_cons, List.map_nil, List.mem_singleton] at hpm
                exact absurd hpm hpq
      · rw [List.map_append, List.nodup_append]
        refine ⟨hacc, by simp, ?_⟩
        intro a ha hb
        simp only [List.map_cons, List.map_nil, List.mem_singleton] at hb
        subst hb
        exact h (hsub _ ha)
      · intro q hq
        rw [List.map_append] at hq
        rcases List.mem_append.mp hq with hq | hq
        · exact List.mem_cons_of_mem _ (hsub q hq)
        · simp only [List.map_cons, List.map_nil, List.mem_singleton] at hq
          exact hq ▸ List.mem_cons_self _ _

/-- Claim C4 (amended): after Pass A all `(PLAYER_ID, GAME_ID)` pairs are
pairwise distinct **provided** every pair occurs at most twice in the input,
no rewritten id reproduces a pair already present in the input, and distinct
pairs have distinct rewrites.  A pair occurring three or more times is not
restored to uniqueness: its third and later occurrences receive the same
rewritten id as the second (`C4_counterexample`). -/
theorem passA_nodup_of_bounded_dups (rows : List FRow)
    (h1 : ∀ p ∈ rows.map fpair, (rows.map fpair).count p ≤ 2)
    (h2 : ∀ p ∈ rows.map fpair, rwp p ∉ rows.map fpair)
    (h3 : ∀ p ∈ rows.map fpair, ∀ q ∈ rows.map fpair, p ≠ q → rwp p ≠ rwp q) :
    (((passA rows).1).map fpair).Nodup := by
  unfold passA
  exact passAGo_nodup_inv rows [] [] [] 0 (by simp) (by simp) (by simp)
    (by simpa using h1) (by simpa using h2) (by simpa using h3)

/-- Witness for `passA_nodup_of_bounded_dups`: a pair occurring exactly
twice with a fresh rewrite yields distinct output pairs. -/
theorem passA_nodup_of_bounded_dups_witness :
    (((passA [⟨"P", "G1", ""⟩, ⟨"P", "G1", ""⟩]).1).map fpair).Nodup :=
  passA_nodup_of_bounded_dups _ (by decide) (by decide) (by decide)

/-- Counterexample to claim C7: on a file where the pair `(P, G1)` occurs
three times (and no `game_date` column exists), the first run leaves two
identical rewritten pairs, and the second run over the first run's output
still applies 1 change, not 0. -/
theorem C7_counterexample :
    (fixFile false ((fixFile false
        [⟨"P", "G1", ""⟩, ⟨"P", "G1", ""⟩, ⟨"P", "G1", ""⟩]).1)).2 = 1 ∧
    (1 : Nat) ≠ 0 := by
  refine ⟨by decide, by decide⟩

/-- Claim C7 (amended): the Identifier Repair Engine applies zero changes on
already-correct input — a file whose `(PLAYER_ID, GAME_ID)` pairs are
pairwise distinct and none of whose rows triggers the Pass-B date repair is
returned unchanged with change count 0 (hence re-running it on such output
changes nothing).  General idempotence fails: a pair occurring three or more
times is altered again on every run (`C7_counterexample`). -/
theorem fixFile_correct_input_unchanged (hasDate : Bool) (rows : List FRow)
    (h1 : (rows.map fpair).Nodup) (h2 : ∀ r ∈ rows, passBRow r = (r, 0)) :
    fixFile hasDate rows = (rows, 0) := by
  unfold fixFile passA
  rw [passAGo_no_dups rows [] [] 0 (by simp) h1]
  simp only [List.nil_append]
  cases hasDate with
  | false => simp [passB]
  | true =>
    unfold passB
    rw [if_pos rfl, passB_fold_id rows [] 0 h2]
    simp

/-- Witness for `fixFile_correct_input_unchanged` on a two-row correct file. -/
theorem fixFile_correct_input_unchanged_witness :
    fixFile true [⟨"P", "20230815AABB0", "2023-08-15"⟩, ⟨"Q", "20230815AABB0", "2023-08-15"⟩] =
      ([⟨"P", "20230815AABB0", "2023-08-15"⟩, ⟨"Q", "20230815AABB0", "2023-08-15"⟩], 0) :=
  fixFile_correct_input_unchanged true _ (by decide) (by decide)

/-- Counterexample to claim C8: the id `"G1"` ends in the sequence digit
`'1'` but has length 2, not 13; its repeated occurrence is rewritten by
appending `'_2'` — `"G1_2"` — and not by flipping the digit to `"G2"`. -/
theorem C8_counterexample :
    ((passA [⟨"P", "G1", ""⟩, ⟨"P", "G1", ""⟩]).1.map (fun r => r.gid)) = ["G1", "G1_2"] ∧
    "G1".data.getLast? = some '1' ∧
    ("G1_2" : String) ≠ "G2" := by
  refine ⟨by decide, by decide, by decide⟩

/-- Claim C8 (amended): scanning in file order with a seen-set of
`(player_id, game_id)` pairs, the row processed at each step is written
unmodified when its pair is new; when its pair was already seen, its id is
rewritten by flipping the trailing `'1'` to `'2'` **only when the id is
exactly 13 characters long**, and by appending `'_2'` otherwise. -/
theorem passA_repeat_rewrite (seen : List (String × String)) (acc : List FRow)
    (chg : Nat) (r : FRow) (rest : List FRow) :
    (passAGo seen acc chg (r :: rest)).1.get? acc.length =
      some (if fpair r ∈ seen then
              { r with gid := if r.gid.data.length = 13 ∧ r.gid.data.getLast? = some '1'
                              then ⟨r.gid.data.dropLast ++ ['2']⟩ else r.gid ++ "_2" }
            else r) := by
  have hr : rewriteGid r.gid =
      (if r.gid.data.length = 13 ∧ r.gid.data.getLast? = some '1'
       then (⟨r.gid.data.dropLast ++ ['2']⟩ : String) else r.gid ++ "_2") := by
    unfold rewriteGid
    by_cases h13 : r.gid.data.length = 13
    · by_cases hlast : r.gid.data.getLast? = some '1'
      · rw [if_pos h13, if_pos hlast, if_pos ⟨h13, hlast⟩]
      · rw [if_pos h13, if_neg hlast, if_neg (fun hc => hlast hc.2)]
    · rw [if_neg h13, if_neg (fun hc => h13 hc.1)]
  by_cases h : fpair r ∈ seen
  · simp only [passAGo, if_pos h]
    rw [passAGo_acc, ← hr]
    rw [List.append_assoc, List.get?_append_right (Nat.le_refl acc.length)]
    simp
  · simp only [passAGo, if_neg h]
    rw [passAGo_acc]
    rw [List.append_assoc, List.get?_append_right (Nat.le_refl acc.length)]
    simp

/-- Keys accumulated by the first-wins fold stay pairwise distinct. -/
theorem foldl_addYearFirst_pairwise (parsed : List (Nat × String)) :
    ∀ acc : List (Nat × String), acc.Pairwise (fun a b => a.1 ≠ b.1) →
      (parsed.foldl addYearFirst acc).Pairwise (fun a b => a.1 ≠ b.1) := by
  induction parsed with
  | nil => intro acc h; simpa
  | cons p parsed ih =>
    intro acc h
    simp only [List.foldl_cons]
    apply ih
    unfold addYearFirst
    by_cases hc : acc.any (fun q => q.1 == p.1) = true
    · rw [if_pos hc]; exact h
    · rw [if_neg hc]
      rw [List.pairwise_append]
      refine ⟨h, by simp, ?_⟩
      intro a ha b hb
      simp only [List.mem_singleton] at hb
      subst hb
      intro hab
      apply hc
      rw [List.any_eq_true]
      exact ⟨a, ha, by simp [hab]⟩

/-- The `year_team` association list has pairwise distinct years. -/
theorem yearTeamFirst_keys_nodup (parsed : List (Nat × String)) :
    (yearTeamFirst parsed).Pairwise (fun a b => a.1 ≠ b.1) :=
  foldl_addYearFirst_pairwise parsed [] (by simp)

/-- The sorted, deduplicated year rows are strictly increasing in year. -/
theorem yearRows_sorted_lt (parsed : List (Nat × String)) :
    (yearRows parsed).Pairwise (fun a b => a.1 < b.1) := by
  unfold yearRows
  have hne : ((yearTeamFirst parsed).filter
      (fun p => decide (2021 ≤ p.1) && decide (p.1 ≤ 2025))).Pairwise
        (fun a b => a.1 ≠ b.1) :=
    (yearTeamFirst_keys_nodup parsed).filter _
  have hperm := List.perm_insertionSort (fun a b : Nat × String => a.1 ≤ b.1)
    ((yearTeamFirst parsed).filter (fun p => decide (2021 ≤ p.1) && decide (p.1 ≤ 2025)))
  have hne2 : (List.insertionSort (fun a b : Nat × String => a.1 ≤ b.1)
      ((yearTeamFirst parsed).filter
        (fun p => decide (2021 ≤ p.1) && decide (p.1 ≤ 2025)))).Pairwise
        (fun a b => a.1 ≠ b.1) :=
    (List.Perm.pairwise_iff (fun hxy => hxy.symm) hperm).mpr hne
  have hsorted : (List.insertionSort (fun a b : Nat × String => a.1 ≤ b.1)
      ((yearTeamFirst parsed).filter
        (fun p => decide (2021 ≤ p.1) && decide (p.1 ≤ 2025)))).Pairwise
        (fun a b : Nat × String => a.1 ≤ b.1) := by
    haveI : IsTotal (Nat × String) (fun a b => a.1 ≤ b.1) := ⟨fun a b => Nat.le_total a.1 b.1⟩
    haveI : IsTrans (Nat × String) (fun a b => a.1 ≤ b.1) :=
      ⟨fun a b c hab hbc => Nat.le_trans hab hbc⟩
    exact List.sorted_insertionSort _ _
  exact (hsorted.and hne2).imp (fun hab => lt_of_le_of_ne hab.1 hab.2)

/-- The grouping loop emits intervals that are internally well-formed,
chronologically disjoint, and bounded below by the open group's start. -/
theorem buildGo_props (rest : List (Nat × String)) :
    ∀ (gs : Nat) (gt : String) (prev : Nat),
      gs ≤ prev →
      rest.Pairwise (fun a b => a.1 < b.1) →
      (∀ p ∈ rest, prev < p.1) →
      (∀ i ∈ buildGo gs gt prev rest, i.startDate ≤ i.endDate) ∧
      (buildGo gs gt prev rest).Pairwise (fun a b => a.endDate < b.startDate) ∧
      (∀ i ∈ buildGo gs gt prev rest, mkYmd gs 1 1 ≤ i.startDate) := by
  induction rest with
  | nil =>
    intro gs gt prev hgs _ _
    refine ⟨?_, ?_, ?_⟩
    · intro i hi
      simp only [buildGo, List.mem_singleton] at hi
      subst hi
      show mkYmd gs 1 1 ≤ mkYmd prev 12 31
      unfold mkYmd; omega
    · simp [buildGo]
    · intro i hi
      simp only [buildGo, List.mem_singleton] at hi
      subst hi
      exact Nat.le_refl _
  | cons p rest ih =>
    intro gs gt prev hgs hpw hgt
    obtain ⟨y, t⟩ := p
    have hy : prev < y := hgt (y, t) (by simp)
    have hpw' : rest.Pairwise (fun a b => a.1 < b.1) := (List.pairwise_cons.mp hpw).2
    have hhd : ∀ q ∈ rest, y < q.1 := fun q hq => (List.pairwise_cons.mp hpw).1 q hq
    by_cases hc : t = gt ∧ y = prev + 1
    · simp only [buildGo, if_pos hc]
      obtain ⟨hall, hpw2, hstart⟩ := ih gs gt y (by omega) hpw' hhd
      exact ⟨hall, hpw2, hstart⟩
    · simp only [buildGo, if_neg hc]
      obtain ⟨hall, hpw2, hstart⟩ := ih y t y (Nat.le_refl y) hpw' hhd
      refine ⟨?_, ?_, ?_⟩
      · intro i hi
        rcases List.mem_cons.mp hi with rfl | hi
        · show mkYmd gs 1 1 ≤ mkYmd prev 12 31
          unfold mkYmd; omega
        · exact hall i hi
      · rw [List.pairwise_cons]
        refine ⟨?_, hpw2⟩
        intro j hj
        have h1 : mkYmd y 1 1 ≤ j.startDate := hstart j hj
        show mkYmd prev 12 31 < j.startDate
        have h2 : mkYmd prev 12 31 < mkYmd y 1 1 := by unfold mkYmd; omega
        omega
      · intro i hi
        rcases List.mem_cons.mp hi with rfl | hi
        · exact Nat.le_refl _
        · have h1 := hstart i hi
          have h2 : mkYmd gs 1 1 ≤ mkYmd y 1 1 := by unfold mkYmd; omega
          omega

/-- Claim C9: for every player, the interval list produced by
`fetch_player_history` is sorted by start date, pairwise non-overlapping
(each interval ends strictly before the next one starts), and every interval
satisfies `start_date ≤ end_date`. -/
theorem fetchPlayerHistory_intervals_wellformed (parsed : List (Nat × String)) :
    (∀ i ∈ fetchPlayerHistory parsed, i.startDate ≤ i.endDate) ∧
    (fetchPlayerHistory parsed).Pairwise (fun a b => a.endDate < b.startDate) ∧
    (fetchPlayerHistory parsed).Pairwise (fun a b => a.startDate ≤ b.startDate) := by
  have hsorted := yearRows_sorted_lt parsed
  rcases hy : yearRows parsed with _ | ⟨⟨y, t⟩, rest⟩
  · simp [fetchPlayerHistory, hy]
  · rw [hy] at hsorted
    have h := buildGo_props rest y t y (Nat.le_refl y)
      (List.pairwise_cons.mp hsorted).2 (List.pairwise_cons.mp hsorted).1
    have hout : fetchPlayerHistory parsed = buildGo y t y rest := by
      simp [fetchPlayerHistory, hy]
    rw [hout]
    refine ⟨h.1, h.2.1, ?_⟩
    exact h.2.1.imp_of_mem (fun ha hb hR => Nat.le_trans (h.1 _ ha) (Nat.le_of_lt hR))

/-- Claim C10: for a bare name mapping to two or more candidate ids, the
Player Identity Merger attaches an id exactly when intersecting the
candidates with the ids observed to carry the file's role yields exactly one
id (in which case that id is chosen); with zero or several role matches the
`player_id` is left empty. -/
theorem choosePid_ambiguous_role_intersection (attrs : List (String × String))
    (rolesMap : String → List String) (dr : String) (n : String)
    (hn : n ≠ "") (hdr : dr ≠ "") (hc : 2 ≤ (idsOf attrs n).length) :
    choosePid attrs rolesMap (some dr) n =
      (if ((idsOf attrs n).filter (fun pid => (rolesMap pid).contains dr)).length = 1
       then ((idsOf attrs n).filter (fun pid => (rolesMap pid).contains dr)).headD ""
       else "") := by
  have hlen : ¬ (idsOf attrs n).length = 1 := by omega
  have hgate : (decide (1 < (idsOf attrs n).length) && truthyStr (some dr)) = true := by
    simp only [Bool.and_eq_true, decide_eq_true_eq, truthyStr, bne_iff_ne]
    exact ⟨by omega, hdr⟩
  simp only [choosePid]
  rw [if_neg hn, if_neg hlen, if_neg hlen, if_pos hgate]
  simp

/-- Witness for `choosePid_ambiguous_role_intersection`: the name maps to two
ids of which exactly one carries the file's role. -/
theorem choosePid_ambiguous_role_intersection_witness :
    choosePid [("kim", "1"), ("kim", "2")]
        (fun pid => if pid = "1" then ["hitter"] else ["pitcher"]) (some "hitter") "kim" =
      (if ((idsOf [("kim", "1"), ("kim", "2")] "kim").filter
            (fun pid => ((fun pid => if pid = "1" then ["hitter"] else ["pitcher"]) pid).contains
              "hitter")).length = 1
       then ((idsOf [("kim", "1"), ("kim", "2")] "kim").filter
            (fun pid => ((fun pid => if pid = "1" then ["hitter"] else ["pitcher"]) pid).contains
              "hitter")).headD ""
       else "") :=
  choosePid_ambiguous_role_intersection _ _ _ _ (by decide) (by decide) (by decide)

end Kbo
